import Mathlib

/-!
Verification of the candidate ratification state machine of the Nullrefback
backend (src/server.cjs and src/server.js).

The data model and the operations are embedded shallowly: a JS object used as
a vote map becomes an association list with unique keys (`VoteMap`), members
and candidates become structures with the fields the code stores, and each
request handler becomes a pure function from the stored state and the request
body to a response paired with the state that is persisted when the handler
returns.
-/

/-- A club member as stored in data.json: a unique name and a bcrypt pin hash
(the hash itself is opaque to the logic verified here). -/
structure Member where
  name : String
  pinHash : String
  deriving DecidableEq, Repr

/-- A vote map: the JS object `votes` keyed by member name.  JS objects have
unique keys; lookup is by key, `Object.keys(votes).length` is the list
length. -/
abbrev VoteMap := List (String × Bool)

/-- A candidate record as stored in data.json. -/
structure Candidate where
  id : String
  firstName : String
  lastInitial : String
  notes : String
  votes : VoteMap
  status : String
  ratified : Bool
  totalMembers : Nat
  createdAt : String
  deriving DecidableEq, Repr

/-- Lookup `votes[n]`: `some b` when key `n` is present with value `b`,
`none` when absent (JS `undefined`). -/
def voteOf (votes : VoteMap) (n : String) : Option Bool :=
  (votes.find? (fun p => p.1 == n)).map (fun p => p.2)

/-- `votes[n] = b`: JS assignment into an object updates the value in place
when the key exists (keeping its position) and appends the key otherwise. -/
def setVote (votes : VoteMap) (n : String) (b : Bool) : VoteMap :=
  match votes with
  | [] => [(n, b)]
  | p :: ps => if p.1 == n then (n, b) :: ps else p :: setVote ps n b

/-- `recomputeStatus(c, membersArr)` from src/server.cjs lines 47-58: derives
status, ratified and totalMembers from the votes and the roster, leaving the
other fields untouched. -/
def recomputeStatus (c : Candidate) (membersArr : List Member) : Candidate :=
  let names := membersArr.map (fun m => m.name)
  let votes := c.votes
  let total := names.length
  let votedCount := votes.length
  let allYes := decide (0 < total) && names.all (fun n => voteOf votes n == some true)
  let allNo := decide (0 < total) && (votedCount == total) &&
    names.all (fun n => voteOf votes n == some false)
  if allYes then { c with status := "banned", ratified := true, totalMembers := total }
  else if allNo then { c with status := "allowed", ratified := false, totalMembers := total }
  else { c with status := "pending", ratified := false, totalMembers := total }

namespace ServerJs

/-- `recomputeStatus(candidate, membersArr)` from src/server.js lines 53-64,
embedded separately so the two variants can be compared. -/
def recomputeStatus (candidate : Candidate) (membersArr : List Member) : Candidate :=
  let names := membersArr.map (fun m => m.name)
  let votes := candidate.votes
  let total := names.length
  let votedCount := votes.length
  let allYes := decide (0 < total) && names.all (fun n => voteOf votes n == some true)
  let allNo := decide (0 < total) && (votedCount == total) &&
    names.all (fun n => voteOf votes n == some false)
  if allYes then
    { candidate with status := "banned", ratified := true, totalMembers := total }
  else if allNo then
    { candidate with status := "allowed", ratified := false, totalMembers := total }
  else { candidate with status := "pending", ratified := false, totalMembers := total }

end ServerJs

/-- The `allYes` condition of `recomputeStatus`, as a function of the votes
and the roster only. -/
def allYesB (votes : VoteMap) (ms : List Member) : Bool :=
  decide (0 < ms.length) && (ms.map (fun m => m.name)).all (fun n => voteOf votes n == some true)

/-- The `allNo` condition of `recomputeStatus`, as a function of the votes
and the roster only. -/
def allNoB (votes : VoteMap) (ms : List Member) : Bool :=
  decide (0 < ms.length) && (votes.length == ms.length) &&
    (ms.map (fun m => m.name)).all (fun n => voteOf votes n == some false)

/-- The status string `recomputeStatus` assigns. -/
def statusOf (votes : VoteMap) (ms : List Member) : String :=
  if allYesB votes ms then "banned" else if allNoB votes ms then "allowed" else "pending"

/-- The ratified flag `recomputeStatus` assigns: true exactly in the allYes
branch. -/
def ratifiedOf (votes : VoteMap) (ms : List Member) : Bool :=
  allYesB votes ms

theorem recomputeStatus_eq (c : Candidate) (ms : List Member) :
    recomputeStatus c ms =
      { c with status := statusOf c.votes ms, ratified := ratifiedOf c.votes ms,
               totalMembers := ms.length } := by
  simp only [recomputeStatus, statusOf, ratifiedOf, allYesB, allNoB, List.length_map]
  split_ifs with h1 h2 <;> simp_all

theorem recomputeStatus_votes (c : Candidate) (ms : List Member) :
    (recomputeStatus c ms).votes = c.votes := by
  rw [recomputeStatus_eq]

theorem recomputeStatus_status (c : Candidate) (ms : List Member) :
    (recomputeStatus c ms).status = statusOf c.votes ms := by
  rw [recomputeStatus_eq]

theorem recomputeStatus_ratified (c : Candidate) (ms : List Member) :
    (recomputeStatus c ms).ratified = ratifiedOf c.votes ms := by
  rw [recomputeStatus_eq]

theorem recomputeStatus_idem_aux (c : Candidate) (ms : List Member) :
    recomputeStatus (recomputeStatus c ms) ms = recomputeStatus c ms := by
  simp [recomputeStatus_eq]

theorem allYesB_eq_true (v : VoteMap) (ms : List Member) :
    allYesB v ms = true ↔ 0 < ms.length ∧ ∀ m ∈ ms, voteOf v m.name = some true := by
  simp [allYesB, List.all_eq_true]

theorem allNoB_eq_true (v : VoteMap) (ms : List Member) :
    allNoB v ms = true ↔
      0 < ms.length ∧ v.length = ms.length ∧ ∀ m ∈ ms, voteOf v m.name = some false := by
  simp [allNoB, List.all_eq_true, and_assoc]

theorem mem_keys_of_voteOf (v : VoteMap) (n : String) (b : Bool)
    (h : voteOf v n = some b) : n ∈ v.map Prod.fst := by
  unfold voteOf at h
  cases hf : v.find? (fun q => q.1 == n) with
  | none => rw [hf] at h; cases h
  | some q =>
    have hq := List.find?_some hf
    have hmem : q ∈ v := List.mem_of_find?_eq_some hf
    have hqn : q.1 = n := by simpa using hq
    exact hqn ▸ List.mem_map.mpr ⟨q, hmem, rfl⟩

/-- A candidate record with the given vote map, used to instantiate the
theorems on concrete inputs. -/
def mkCand (v : VoteMap) : Candidate :=
  { id := "id1", firstName := "F", lastInitial := "L", notes := "", votes := v,
    status := "pending", ratified := false, totalMembers := 0, createdAt := "t" }

/-- C1: for every roster of size at least one and every vote map, if every
roster member maps to true in the vote map then recomputeStatus yields status
banned and ratified true. -/
theorem recompute_allYes_banned (ms : List Member) (c : Candidate)
    (hN : 0 < ms.length)
    (hall : ∀ m ∈ ms, voteOf c.votes m.name = some true) :
    (recomputeStatus c ms).status = "banned" ∧ (recomputeStatus c ms).ratified = true := by
  have hy : allYesB c.votes ms = true := (allYesB_eq_true _ _).mpr ⟨hN, hall⟩
  simp [recomputeStatus_status, recomputeStatus_ratified, statusOf, ratifiedOf, hy]

/-- Witness for C1 at the roster [A] with the single vote A ↦ true. -/
theorem recompute_allYes_banned_witness :
    (recomputeStatus (mkCand [("A", true)]) [⟨"A", "h"⟩]).status = "banned" ∧
    (recomputeStatus (mkCand [("A", true)]) [⟨"A", "h"⟩]).ratified = true :=
  recompute_allYes_banned [⟨"A", "h"⟩] (mkCand [("A", true)]) (by decide) (by decide)

/-- C3: if at least one roster member has no entry in the vote map, the
result is pending with ratified false, whatever the present entries hold. -/
theorem recompute_partial_pending (ms : List Member) (c : Candidate)
    (hN : 0 < ms.length) (m0 : Member) (hm : m0 ∈ ms)
    (hmiss : voteOf c.votes m0.name = none) :
    (recomputeStatus c ms).status = "pending" ∧ (recomputeStatus c ms).ratified = false := by
  have hy : allYesB c.votes ms = false := by
    rw [Bool.eq_false_iff]
    intro h
    obtain ⟨-, hall⟩ := (allYesB_eq_true _ _).mp h
    have hx := hall m0 hm
    rw [hmiss] at hx
    cases hx
  have hn : allNoB c.votes ms = false := by
    rw [Bool.eq_false_iff]
    intro h
    obtain ⟨-, -, hall⟩ := (allNoB_eq_true _ _).mp h
    have hx := hall m0 hm
    rw [hmiss] at hx
    cases hx
  simp [recomputeStatus_status, recomputeStatus_ratified, statusOf, ratifiedOf, hy, hn]

/-- Witness for C3 at the roster [A, B] where only A has voted (true). -/
theorem recompute_partial_pending_witness :
    (recomputeStatus (mkCand [("A", true)]) [⟨"A", "h"⟩, ⟨"B", "h"⟩]).status = "pending" ∧
    (recomputeStatus (mkCand [("A", true)]) [⟨"A", "h"⟩, ⟨"B", "h"⟩]).ratified = false :=
  recompute_partial_pending [⟨"A", "h"⟩, ⟨"B", "h"⟩] (mkCand [("A", true)]) (by decide)
    ⟨"B", "h"⟩ (by decide) (by decide)

/-- C6: with an empty roster every vote map yields status pending and
ratified false. -/
theorem recompute_empty_roster_pending (c : Candidate) :
    (recomputeStatus c []).status = "pending" ∧ (recomputeStatus c []).ratified = false := by
  simp [recomputeStatus_status, recomputeStatus_ratified, statusOf, ratifiedOf,
    allYesB, allNoB]

/-- C7: recomputeStatus is idempotent: running it twice on the same
(candidate, members) pair gives the same candidate record as running it
once. -/
theorem recompute_idempotent (c : Candidate) (ms : List Member) :
    recomputeStatus (recomputeStatus c ms) ms = recomputeStatus c ms :=
  recomputeStatus_idem_aux c ms

/-- C9: the recomputeStatus of src/server.js and the recomputeStatus of
src/server.cjs agree on (status, ratified, totalMembers) for every candidate
and roster. -/
theorem recompute_variants_agree (c : Candidate) (ms : List Member) :
    ((ServerJs.recomputeStatus c ms).status, (ServerJs.recomputeStatus c ms).ratified,
      (ServerJs.recomputeStatus c ms).totalMembers) =
    ((recomputeStatus c ms).status, (recomputeStatus c ms).ratified,
      (recomputeStatus c ms).totalMembers) := rfl

/-- C10: after recomputeStatus, ratified holds exactly when the status is
banned. -/
theorem recompute_ratified_iff_banned (c : Candidate) (ms : List Member) :
    (recomputeStatus c ms).ratified = true ↔ (recomputeStatus c ms).status = "banned" := by
  simp only [recomputeStatus_status, recomputeStatus_ratified, ratifiedOf, statusOf]
  split_ifs with h1 h2 <;> simp_all

/-- C2 counterexample: roster [A], vote map with entries A ↦ false and
B ↦ false.  Every roster member has a false entry and every entry in the map
is false, yet recomputeStatus yields pending, not allowed, because the vote
count (2) differs from the roster size (1). -/
theorem allNo_extra_entry_counterexample :
    0 < ([⟨"A", "hA"⟩] : List Member).length ∧
    (∀ m ∈ ([⟨"A", "hA"⟩] : List Member),
      voteOf (mkCand [("A", false), ("B", false)]).votes m.name = some false) ∧
    (∀ p ∈ (mkCand [("A", false), ("B", false)]).votes, p.2 = false) ∧
    (recomputeStatus (mkCand [("A", false), ("B", false)]) [⟨"A", "hA"⟩]).status ≠ "allowed" ∧
    (recomputeStatus (mkCand [("A", false), ("B", false)]) [⟨"A", "hA"⟩]).status = "pending" := by
  decide

/-- C2 amended: for a roster with pairwise distinct names and a vote map with
pairwise distinct keys, if the roster is nonempty, every roster member has a
false entry, every entry is false, and every key of the vote map belongs to
the roster, then recomputeStatus yields status allowed and ratified false. -/
theorem recompute_allNo_allowed (ms : List Member) (c : Candidate)
    (hN : 0 < ms.length)
    (hkeysN : (c.votes.map Prod.fst).Nodup)
    (hnamesN : (ms.map (fun m => m.name)).Nodup)
    (hall : ∀ m ∈ ms, voteOf c.votes m.name = some false)
    (hkeys : ∀ p ∈ c.votes, ∃ m ∈ ms, p.1 = m.name) :
    (recomputeStatus c ms).status = "allowed" ∧ (recomputeStatus c ms).ratified = false := by
  have hsub1 : (ms.map (fun m => m.name)) ⊆ c.votes.map Prod.fst := by
    intro n hn
    obtain ⟨m, hm, rfl⟩ := List.mem_map.mp hn
    exact mem_keys_of_voteOf _ _ _ (hall m hm)
  have hsub2 : c.votes.map Prod.fst ⊆ ms.map (fun m => m.name) := by
    intro n hn
    obtain ⟨p, hp, rfl⟩ := List.mem_map.mp hn
    obtain ⟨m, hm, he⟩ := hkeys p hp
    exact List.mem_map.mpr ⟨m, hm, he.symm⟩
  have hlen : c.votes.length = ms.length := by
    have h1 := (hnamesN.subperm hsub1).length_le
    have h2 := (hkeysN.subperm hsub2).length_le
    simp only [List.length_map] at h1 h2
    exact Nat.le_antisymm h2 h1
  have hn : allNoB c.votes ms = true := (allNoB_eq_true _ _).mpr ⟨hN, hlen, hall⟩
  have hy : allYesB c.votes ms = false := by
    rw [Bool.eq_false_iff]
    intro h
    obtain ⟨m0, hm0⟩ := List.exists_mem_of_length_pos hN
    obtain ⟨-, hally⟩ := (allYesB_eq_true _ _).mp h
    have ht := hally m0 hm0
    have hf := hall m0 hm0
    rw [hf] at ht
    cases ht
  simp [recomputeStatus_status, recomputeStatus_ratified, statusOf, ratifiedOf, hy, hn]

/-- Witness for the amended C2 at the roster [A] with the single vote
A ↦ false. -/
theorem recompute_allNo_allowed_witness :
    (recomputeStatus (mkCand [("A", false)]) [⟨"A", "h"⟩]).status = "allowed" ∧
    (recomputeStatus (mkCand [("A", false)]) [⟨"A", "h"⟩]).ratified = false :=
  recompute_allNo_allowed [⟨"A", "h"⟩] (mkCand [("A", false)]) (by decide) (by decide)
    (by decide) (by decide) (by decide)

/-- The contents of data.json: the roster and the candidate list. -/
structure ServerData where
  members : List Member
  candidates : List Candidate
  deriving DecidableEq, Repr

/-- memberNames(d) from src/server.cjs line 43. -/
def memberNames (d : ServerData) : List String :=
  d.members.map (fun m => m.name)

/-- recomputeAll(d) from src/server.cjs line 59: recomputeStatus applied to
every candidate against the current roster. -/
def recomputeAll (d : ServerData) : ServerData :=
  { d with candidates := d.candidates.map (fun c => recomputeStatus c d.members) }

/-- An HTTP response, reduced to what the claims need: success, or an error
with its status code and message. -/
inductive Resp where
  | ok : Resp
  | err (code : Nat) (msg : String) : Resp
  deriving DecidableEq, Repr

/-- Whether a response is an error response. -/
def Resp.isErr : Resp → Bool
  | .ok => false
  | .err _ _ => true

/-- JS falsiness of an optional string body field: missing (undefined) or the
empty string. -/
def falsy (s : Option String) : Bool :=
  s.getD "" == ""

/-- Replace the first list element satisfying p by its image under f: the JS
pattern of mutating in place the record located by find or findIndex. -/
def replaceFirst (p : Candidate → Bool) (f : Candidate → Candidate) :
    List Candidate → List Candidate
  | [] => []
  | c :: cs => if p c then f c :: cs else c :: replaceFirst p f cs

/-- Remove the first list element satisfying p: splice(idx, 1) at the index
located by findIndex. -/
def eraseFirst (p : Candidate → Bool) : List Candidate → List Candidate
  | [] => []
  | c :: cs => if p c then cs else c :: eraseFirst p cs

/-- POST /members from src/server.cjs lines 129-138.  The bcrypt hash of the
new pin is an input of the model. -/
def postMembers (d : ServerData) (name pin : Option String) (pinHash : String) :
    Resp × ServerData :=
  if falsy name || falsy pin then (.err 400 "name and pin required", d)
  else if d.members.any (fun m => m.name == name.getD "") then (.err 409 "member exists", d)
  else (.ok, recomputeAll
    { d with members := d.members ++ [{ name := name.getD "", pinHash := pinHash }] })

/-- POST /candidates from src/server.cjs lines 140-164.  The generated id and
the creation timestamp are inputs of the model. -/
def postCandidates (d : ServerData) (firstName lastInitial notes : Option String)
    (newId createdAt : String) : Resp × ServerData :=
  if falsy firstName || falsy lastInitial then
    (.err 400 "firstName and lastInitial required", d)
  else if d.candidates.any (fun c =>
      c.firstName.toLower == (firstName.getD "").toLower &&
      c.lastInitial.toLower == ((lastInitial.getD "").take 1).toLower) then
    (.err 409 "name already exists", d)
  else
    (.ok, recomputeAll { d with candidates := d.candidates ++
      [{ id := newId, firstName := firstName.getD "",
         lastInitial := ((lastInitial.getD "").take 1).toUpper,
         notes := notes.getD "", votes := [], status := "pending", ratified := false,
         totalMembers := d.members.length, createdAt := createdAt }] })

/-- POST /vote from src/server.cjs lines 166-180. -/
def postVote (d : ServerData) (candidateId memberName : Option String)
    (vote : Option Bool) : Resp × ServerData :=
  if falsy candidateId || falsy memberName || vote.isNone then
    (.err 400 "candidateId, memberName, vote(boolean) required", d)
  else
    match d.candidates.find? (fun c => c.id == candidateId.getD "") with
    | none => (.err 404 "candidate not found", d)
    | some _ =>
      if !(d.members.any (fun m => m.name == memberName.getD "")) then
        (.err 400 "member not recognized", d)
      else
        let cands := replaceFirst (fun c => c.id == candidateId.getD "")
          (fun c => recomputeStatus
            { c with votes := setVote c.votes (memberName.getD "") (vote.getD false) }
            d.members) d.candidates
        (.ok, { d with candidates := cands })

/-- PATCH /candidates/:id from src/server.cjs lines 182-217.  The JS switch
on the action string becomes a chain of equality tests with the same
cases. -/
def patchCandidate (d : ServerData) (id : String) (action status : Option String) :
    Resp × ServerData :=
  match d.candidates.find? (fun c => c.id == id) with
  | none => (.err 404 "candidate not found", d)
  | some c =>
    if action == some "reopen" then
      let cands := replaceFirst (fun x => x.id == id)
        (fun _ => recomputeStatus
          { c with votes := [], status := "pending", ratified := false } d.members)
        d.candidates
      (.ok, { d with candidates := cands })
    else if action == some "delete" then
      (.ok, { d with candidates := eraseFirst (fun x => x.id == id) d.candidates })
    else if action == some "setStatus" then
      if !(["banned", "allowed", "pending"].contains (status.getD "")) then
        (.err 400 "invalid status", d)
      else
        let st := status.getD ""
        let yes := st == "banned"
        let votes1 : VoteMap :=
          if st == "banned" || st == "allowed" then
            (memberNames d).foldl (fun v n => setVote v n yes) []
          else []
        let cands := replaceFirst (fun x => x.id == id)
          (fun _ => recomputeStatus
            { c with status := st, ratified := yes, votes := votes1 } d.members)
          d.candidates
        (.ok, { d with candidates := cands })
    else (.err 400 "unknown action", d)

/-- GET /candidates from src/server.cjs lines 135-139: responds with the
recomputed candidate list but never saves, so the persisted state is the one
it loaded. -/
def getCandidates (d : ServerData) : List Candidate × ServerData :=
  ((recomputeAll d).candidates, d)

/-- A request to one of the endpoints the claims name, with its body fields
and the values the server generates while handling it. -/
inductive Request where
  | membersAdd (name pin : Option String) (pinHash : String)
  | candidatesAdd (firstName lastInitial notes : Option String) (newId createdAt : String)
  | voteCast (candidateId memberName : Option String) (vote : Option Bool)
  | candidatePatch (id : String) (action status : Option String)
  | membersList
  | candidatesList

/-- Dispatch a request to its handler; the returned state is the one the
server persists when the handler finishes. -/
def handle (d : ServerData) : Request → Resp × ServerData
  | .membersAdd name pin pinHash => postMembers d name pin pinHash
  | .candidatesAdd firstName lastInitial notes newId createdAt =>
      postCandidates d firstName lastInitial notes newId createdAt
  | .voteCast candidateId memberName vote => postVote d candidateId memberName vote
  | .candidatePatch id action status => patchCandidate d id action status
  | .membersList => (.ok, d)
  | .candidatesList => (.ok, (getCandidates d).2)

/-- bootstrapData from src/server.cjs lines 25-38: five seeded members whose
bcrypt pin hashes are inputs of the model, and no candidates. -/
def bootstrapData (h1 h2 h3 h4 h5 : String) : ServerData :=
  { members := [⟨"Daniel", h1⟩, ⟨"David", h2⟩, ⟨"Arnoldo", h3⟩,
      ⟨"Callen", h4⟩, ⟨"William", h5⟩],
    candidates := [] }

/-- The states the stored data can reach: the bootstrap state and everything
the request handlers produce from a reachable state. -/
inductive Reachable : ServerData → Prop where
  | boot (h1 h2 h3 h4 h5 : String) : Reachable (bootstrapData h1 h2 h3 h4 h5)
  | step (d : ServerData) (r : Request) : Reachable d → Reachable (handle d r).2

/-- Consistency of a stored state: every stored candidate is a fixed point of
recomputeStatus against the current roster. -/
def Consistent (d : ServerData) : Prop :=
  ∀ c ∈ d.candidates, recomputeStatus c d.members = c

theorem mem_replaceFirst {p : Candidate → Bool} {f : Candidate → Candidate}
    {l : List Candidate} {x : Candidate} (h : x ∈ replaceFirst p f l) :
    x ∈ l ∨ ∃ c ∈ l, x = f c := by
  induction l with
  | nil => cases h
  | cons a as ih =>
    simp only [replaceFirst] at h
    split at h
    · rcases List.mem_cons.mp h with rfl | hmem
      · exact Or.inr ⟨a, List.mem_cons_self a as, rfl⟩
      · exact Or.inl (List.mem_cons_of_mem a hmem)
    · rcases List.mem_cons.mp h with rfl | hmem
      · exact Or.inl (List.mem_cons_self x as)
      · rcases ih hmem with h1 | ⟨c, hc, rfl⟩
        · exact Or.inl (List.mem_cons_of_mem a h1)
        · exact Or.inr ⟨c, List.mem_cons_of_mem a hc, rfl⟩

theorem mem_eraseFirst {p : Candidate → Bool} {l : List Candidate} {x : Candidate}
    (h : x ∈ eraseFirst p l) : x ∈ l := by
  induction l with
  | nil => cases h
  | cons a as ih =>
    simp only [eraseFirst] at h
    split at h
    · exact List.mem_cons_of_mem a h
    · rcases List.mem_cons.mp h with rfl | hmem
      · exact List.mem_cons_self x as
      · exact List.mem_cons_of_mem a (ih hmem)

theorem consistent_recomputeAll (d : ServerData) : Consistent (recomputeAll d) := by
  intro c hc
  simp only [recomputeAll] at hc
  obtain ⟨c0, hc0, rfl⟩ := List.mem_map.mp hc
  exact recomputeStatus_idem_aux c0 d.members

theorem consistent_handle (d : ServerData) (r : Request) (h : Consistent d) :
    Consistent (handle d r).2 := by
  cases r with
  | membersAdd name pin pinHash =>
    simp only [handle, postMembers]
    split_ifs with h1 h2
    · exact h
    · exact h
    · exact consistent_recomputeAll _
  | candidatesAdd firstName lastInitial notes newId createdAt =>
    simp only [handle, postCandidates]
    split_ifs with h1 h2
    · exact h
    · exact h
    · exact consistent_recomputeAll _
  | voteCast candidateId memberName vote =>
    by_cases h1 : (falsy candidateId || falsy memberName || vote.isNone) = true
    · simp only [handle, postVote, if_pos h1]; exact h
    · simp only [handle, postVote, if_neg h1]
      cases hf : d.candidates.find? (fun c => c.id == candidateId.getD "") with
      | none => simp only [hf]; exact h
      | some c0 =>
        simp only [hf]
        by_cases h2 : (!d.members.any fun m => m.name == memberName.getD "") = true
        · rw [if_pos h2]; exact h
        · rw [if_neg h2]
          intro x hx
          rcases mem_replaceFirst hx with hmem | ⟨c1, hc1, rfl⟩
          · exact h x hmem
          · exact recomputeStatus_idem_aux _ _
  | candidatePatch id action status =>
    simp only [handle, patchCandidate]
    cases hf : d.candidates.find? (fun c => c.id == id) with
    | none => simp only [hf]; exact h
    | some c0 =>
      simp only [hf]
      by_cases h1 : (action == some "reopen") = true
      · rw [if_pos h1]
        intro x hx
        rcases mem_replaceFirst hx with hmem | ⟨c1, hc1, rfl⟩
        · exact h x hmem
        · exact recomputeStatus_idem_aux _ _
      · rw [if_neg h1]
        by_cases h2 : (action == some "delete") = true
        · rw [if_pos h2]
          intro x hx
          exact h x (mem_eraseFirst hx)
        · rw [if_neg h2]
          by_cases h3 : (action == some "setStatus") = true
          · rw [if_pos h3]
            by_cases h4 : (!(["banned", "allowed", "pending"].contains (status.getD ""))) = true
            · rw [if_pos h4]; exact h
            · rw [if_neg h4]
              intro x hx
              rcases mem_replaceFirst hx with hmem | ⟨c1, hc1, rfl⟩
              · exact h x hmem
              · exact recomputeStatus_idem_aux _ _
          · rw [if_neg h3]; exact h
  | membersList => exact h
  | candidatesList => exact h

theorem reachable_consistent (d : ServerData) (h : Reachable d) : Consistent d := by
  induction h with
  | boot h1 h2 h3 h4 h5 => intro c hc; cases hc
  | step d0 r _ ih => exact consistent_handle d0 r ih

/-- C4: in every state reachable through the request handlers, each stored
candidate's status and ratified fields equal the ones recomputeStatus derives
from its votes and the current roster; they are never independent state. -/
theorem reachable_status_ratified_recomputed (d : ServerData) (h : Reachable d) :
    ∀ c ∈ d.candidates,
      c.status = (recomputeStatus c d.members).status ∧
      c.ratified = (recomputeStatus c d.members).ratified := by
  intro c hc
  have hx := reachable_consistent d h c hc
  exact ⟨(congrArg Candidate.status hx).symm, (congrArg Candidate.ratified hx).symm⟩

/-- The state reached from bootstrap by adding a candidate and recording one
vote on it. -/
def demoState : ServerData :=
  (handle (handle (bootstrapData "a" "b" "c" "d" "e")
    (.candidatesAdd (some "John") (some "D") none "cid1" "t1")).2
    (.voteCast (some "cid1") (some "Daniel") (some true))).2

/-- The candidate stored in demoState. -/
def demoCand : Candidate :=
  { id := "cid1", firstName := "John", lastInitial := ("D".take 1).toUpper, notes := "",
    votes := [("Daniel", true)], status := "pending", ratified := false,
    totalMembers := 5, createdAt := "t1" }

/-- Witness for C4 at the stored candidate of demoState. -/
theorem reachable_status_ratified_recomputed_witness :
    demoCand.status = (recomputeStatus demoCand demoState.members).status ∧
    demoCand.ratified = (recomputeStatus demoCand demoState.members).ratified :=
  reachable_status_ratified_recomputed demoState
    (Reachable.step _ _ (Reachable.step _ _ (Reachable.boot "a" "b" "c" "d" "e")))
    demoCand (List.Mem.head _)

theorem postMembers_err (d : ServerData) (name pin : Option String) (pinHash : String)
    (h : (postMembers d name pin pinHash).1.isErr = true) :
    (postMembers d name pin pinHash).2 = d := by
  unfold postMembers at h ⊢
  split_ifs at h ⊢ <;> first | rfl | simp [Resp.isErr] at h

theorem postCandidates_err (d : ServerData) (firstName lastInitial notes : Option String)
    (newId createdAt : String)
    (h : (postCandidates d firstName lastInitial notes newId createdAt).1.isErr = true) :
    (postCandidates d firstName lastInitial notes newId createdAt).2 = d := by
  unfold postCandidates at h ⊢
  split_ifs at h ⊢ <;> first | rfl | simp [Resp.isErr] at h

theorem postVote_err (d : ServerData) (candidateId memberName : Option String)
    (vote : Option Bool) (h : (postVote d candidateId memberName vote).1.isErr = true) :
    (postVote d candidateId memberName vote).2 = d := by
  by_cases h1 : (falsy candidateId || falsy memberName || vote.isNone) = true
  · simp only [postVote, if_pos h1]
  · simp only [postVote, if_neg h1] at h ⊢
    cases hf : d.candidates.find? (fun c => c.id == candidateId.getD "") with
    | none => simp only [hf]
    | some c0 =>
      simp only [hf] at h ⊢
      by_cases h2 : (!d.members.any fun m => m.name == memberName.getD "") = true
      · rw [if_pos h2]
      · rw [if_neg h2] at h
        simp [Resp.isErr] at h

theorem patchCandidate_err (d : ServerData) (id : String) (action status : Option String)
    (h : (patchCandidate d id action status).1.isErr = true) :
    (patchCandidate d id action status).2 = d := by
  unfold patchCandidate at h ⊢
  cases hf : d.candidates.find? (fun c => c.id == id) with
  | none => simp only [hf]
  | some c0 =>
    simp only [hf] at h ⊢
    by_cases h1 : (action == some "reopen") = true
    · rw [if_pos h1] at h; simp [Resp.isErr] at h
    · rw [if_neg h1] at h ⊢
      by_cases h2 : (action == some "delete") = true
      · rw [if_pos h2] at h; simp [Resp.isErr] at h
      · rw [if_neg h2] at h ⊢
        by_cases h3 : (action == some "setStatus") = true
        · rw [if_pos h3] at h ⊢
          by_cases h4 : (!(["banned", "allowed", "pending"].contains (status.getD ""))) = true
          · rw [if_pos h4]
          · rw [if_neg h4] at h; simp [Resp.isErr] at h
        · rw [if_neg h3]

/-- C8: whenever a request is rejected with an error response, the persisted
state is exactly the state the handler loaded: no partial mutation occurs. -/
theorem rejected_request_no_mutation (d : ServerData) (r : Request)
    (h : (handle d r).1.isErr = true) : (handle d r).2 = d := by
  cases r with
  | membersAdd name pin pinHash => exact postMembers_err d name pin pinHash h
  | candidatesAdd firstName lastInitial notes newId createdAt =>
    exact postCandidates_err d firstName lastInitial notes newId createdAt h
  | voteCast candidateId memberName vote => exact postVote_err d candidateId memberName vote h
  | candidatePatch id action status => exact patchCandidate_err d id action status h
  | membersList => rfl
  | candidatesList => rfl

/-- Witness for C8: a vote for an unknown candidate on the bootstrap state is
rejected and leaves the state unchanged. -/
theorem rejected_request_no_mutation_witness :
    (handle (bootstrapData "a" "b" "c" "d" "e")
        (.voteCast (some "nope") (some "Daniel") (some true))).2 =
      bootstrapData "a" "b" "c" "d" "e" :=
  rejected_request_no_mutation (bootstrapData "a" "b" "c" "d" "e")
    (.voteCast (some "nope") (some "Daniel") (some true)) (by decide)

theorem recomputeStatus_id (c : Candidate) (ms : List Member) :
    (recomputeStatus c ms).id = c.id := by
  rw [recomputeStatus_eq]

theorem setVote_eq_append (v : VoteMap) (n : String) (b : Bool)
    (h : n ∉ v.map Prod.fst) : setVote v n b = v ++ [(n, b)] := by
  induction v with
  | nil => rfl
  | cons p ps ih =>
    simp only [List.map_cons, List.mem_cons, not_or] at h
    obtain ⟨h1, h2⟩ := h
    simp only [setVote, List.cons_append]
    rw [if_neg, ih h2]
    simp only [beq_iff_eq]
    exact fun he => h1 he.symm

theorem foldl_setVote_eq (b : Bool) (ns : List String) :
    ∀ acc : VoteMap, ns.Nodup → (∀ x ∈ ns, x ∉ acc.map Prod.fst) →
      ns.foldl (fun v n => setVote v n b) acc = acc ++ ns.map (fun n => (n, b)) := by
  induction ns with
  | nil => intro acc _ _; simp
  | cons n ns ih =>
    intro acc hnd hdisj
    simp only [List.foldl_cons, List.map_cons]
    rw [setVote_eq_append acc n b (hdisj n (List.mem_cons_self n ns))]
    rw [ih (acc ++ [(n, b)]) (List.Nodup.of_cons hnd)]
    · simp
    · intro x hx
      simp only [List.map_append, List.mem_append, List.map_cons, List.map_nil,
        List.mem_singleton, not_or]
      refine ⟨hdisj x (List.mem_cons_of_mem n hx), fun hxn => ?_⟩
      exact (List.nodup_cons.mp hnd).1 (hxn ▸ hx)

theorem synth_votes_eq (d : ServerData) (b : Bool)
    (hnd : (d.members.map (fun m => m.name)).Nodup) :
    (memberNames d).foldl (fun v n => setVote v n b) [] =
      d.members.map (fun m => (m.name, b)) := by
  rw [foldl_setVote_eq b (memberNames d) [] hnd (by simp)]
  simp [memberNames, List.map_map, Function.comp]

theorem find?_replaceFirst (p : Candidate → Bool) (f : Candidate → Candidate)
    (l : List Candidate) (c : Candidate) (hf : l.find? p = some c)
    (hpf : p (f c) = true) :
    (replaceFirst p f l).find? p = some (f c) := by
  induction l with
  | nil => cases hf
  | cons a as ih =>
    by_cases ha : p a = true
    · rw [List.find?_cons_of_pos as ha] at hf
      injection hf with hc
      subst hc
      simp only [replaceFirst, if_pos ha]
      exact List.find?_cons_of_pos as hpf
    · rw [List.find?_cons_of_neg as (by simpa using ha)] at hf
      simp only [replaceFirst, if_neg ha]
      rw [List.find?_cons_of_neg _ (by simpa using ha)]
      exact ih hf

theorem setStatus_force_result (d : ServerData) (cid : String) (c : Candidate) (st : String)
    (hnd : (d.members.map (fun m => m.name)).Nodup)
    (hfind : d.candidates.find? (fun x => x.id == cid) = some c)
    (hst : st = "banned" ∨ st = "allowed") :
    ((patchCandidate d cid (some "setStatus") (some st)).2).candidates.find?
        (fun x => x.id == cid) =
      some (recomputeStatus
        { c with
          status := st,
          ratified := st == "banned",
          votes := d.members.map (fun m => (m.name, st == "banned")) }
        d.members) := by
  have hpc := List.find?_some hfind
  have h4 : ¬((!(["banned", "allowed", "pending"].contains st)) = true) := by
    rcases hst with rfl | rfl <;> decide
  have h5 : ((st == "banned") || (st == "allowed")) = true := by
    rcases hst with rfl | rfl <;> decide
  simp only [patchCandidate, hfind, Option.getD_some]
  rw [if_neg (by decide), if_neg (by decide), if_pos (by decide), if_neg h4, if_pos h5]
  rw [synth_votes_eq d (st == "banned") hnd]
  exact find?_replaceFirst _ _ _ c hfind (by simp [recomputeStatus_id, hpc])

theorem setStatus_pending_result (d : ServerData) (cid : String) (c : Candidate)
    (hfind : d.candidates.find? (fun x => x.id == cid) = some c) :
    ((patchCandidate d cid (some "setStatus") (some "pending")).2).candidates.find?
        (fun x => x.id == cid) =
      some (recomputeStatus
        { c with
          status := "pending",
          ratified := "pending" == "banned",
          votes := [] }
        d.members) := by
  have hpc := List.find?_some hfind
  simp only [patchCandidate, hfind, Option.getD_some]
  rw [if_neg (by decide), if_neg (by decide), if_pos (by decide), if_neg (by decide),
    if_neg (by decide)]
  exact find?_replaceFirst _ _ _ c hfind (by simp [recomputeStatus_id, hpc])

/-- C5: the setStatus admin action with target banned or allowed replaces the
candidate's vote map by a unanimous vote set over the current roster (every
member mapped to true for banned, to false for allowed); target pending
clears all votes; in particular, forcing banned with roster [A, B] leaves
votes A ↦ true, B ↦ true and status banned. -/
theorem setStatus_synthesizes_votes (d : ServerData) (cid : String) (c : Candidate)
    (hnd : (d.members.map (fun m => m.name)).Nodup)
    (hfind : d.candidates.find? (fun x => x.id == cid) = some c) :
    (∀ st, st = "banned" ∨ st = "allowed" →
      ∃ c1, ((patchCandidate d cid (some "setStatus") (some st)).2).candidates.find?
          (fun x => x.id == cid) = some c1 ∧
        c1.votes = d.members.map (fun m => (m.name, st == "banned"))) ∧
    (∃ c1, ((patchCandidate d cid (some "setStatus") (some "pending")).2).candidates.find?
        (fun x => x.id == cid) = some c1 ∧ c1.votes = []) ∧
    (∀ hA hB : String, d.members = [⟨"A", hA⟩, ⟨"B", hB⟩] →
      ∃ c1, ((patchCandidate d cid (some "setStatus") (some "banned")).2).candidates.find?
          (fun x => x.id == cid) = some c1 ∧
        c1.votes = [("A", true), ("B", true)] ∧ c1.status = "banned") := by
  refine ⟨?_, ?_, ?_⟩
  · intro st hst
    refine ⟨_, setStatus_force_result d cid c st hnd hfind hst, ?_⟩
    rw [recomputeStatus_votes]
  · refine ⟨_, setStatus_pending_result d cid c hfind, ?_⟩
    rw [recomputeStatus_votes]
  · intro hA hB hmem
    refine ⟨_, setStatus_force_result d cid c "banned" hnd hfind (Or.inl rfl), ?_, ?_⟩
    · rw [recomputeStatus_votes, hmem]
      simp
    · rw [recomputeStatus_status]
      simp only [hmem]
      simp [statusOf, allYesB, allNoB, voteOf]

/-- Witness for C5: on a state with roster [A, B] and one stored candidate,
forcing banned leaves votes A ↦ true, B ↦ true and status banned. -/
theorem setStatus_synthesizes_votes_witness :
    ∃ c1, ((patchCandidate
        { members := [⟨"A", "hA"⟩, ⟨"B", "hB"⟩], candidates := [mkCand []] }
        "id1" (some "setStatus") (some "banned")).2).candidates.find?
        (fun x => x.id == "id1") = some c1 ∧
      c1.votes = [("A", true), ("B", true)] ∧ c1.status = "banned" :=
  (setStatus_synthesizes_votes
      { members := [⟨"A", "hA"⟩, ⟨"B", "hB"⟩], candidates := [mkCand []] }
      "id1" (mkCand []) (by decide) (by decide)).2.2 "hA" "hB" rfl
